import Mathlib

/-!
Shallow embedding of `src/parse_docx.py` (synchronbuch-converter).

Python strings are modelled as `List Char`; Python exceptions that can escape a
function are modelled with the `PyRes` result type; functions that Python
guarantees cannot raise are modelled as total Lean functions.  The regular
expressions of the source are concrete enough (their character classes are
pairwise disjoint at every choice point) that greedy maximal-munch matchers are
exactly equivalent to Python's backtracking semantics; they are implemented as
deterministic matchers below.  The `docx2txt` / `python-docx` extraction layer
is out of scope per the spec: `parse_docx` receives the extracted `text` and the
first table's first populated cell text as inputs.  The Streamlit progress bar
(`use_streamlit=False` on every call path modelled here) is omitted.
-/

namespace SyncBuch

/-- Python `str` modelled as a list of characters. -/
abbrev Str := List Char

/-- Coerce a Lean string literal to the model type. -/
def str (s : String) : Str := s.data

/-- The Python exceptions that the source can raise. -/
inductive PyErr where
  | nameError
  | indexError
  | valueError
deriving DecidableEq, Repr

/-- Result of running a Python function: a value, or an uncaught exception. -/
inductive PyRes (α : Type) where
  | ok : α → PyRes α
  | exn : PyErr → PyRes α
deriving DecidableEq, Repr

/-- Python `\s` (re.UNICODE default): ASCII whitespace plus the common Unicode
space characters that can occur in these documents. -/
def pyIsSpace (c : Char) : Bool :=
  c ∈ [' ', '\t', '\n', '\r', '\x0b', '\x0c', '\x1c', '\x1d', '\x1e',
       '\u0085', '\u00a0', '\u1680', '\u2000', '\u2001', '\u2002', '\u2003',
       '\u2004', '\u2005', '\u2006', '\u2007', '\u2008', '\u2009', '\u200a',
       '\u2028', '\u2029', '\u202f', '\u205f', '\u3000']

/-- The line-break characters recognized by Python `str.splitlines`. -/
def isLineBreakChar (c : Char) : Bool :=
  c ∈ ['\n', '\r', '\x0b', '\x0c', '\x1c', '\x1d', '\x1e',
       '\u0085', '\u2028', '\u2029']

/-- Worker for `pySplitlines`; `acc` holds the current line reversed. -/
def pySplitlinesAux (acc : Str) : Str → List Str
  | [] => if acc = [] then [] else [acc.reverse]
  | '\r' :: '\n' :: rest => acc.reverse :: pySplitlinesAux [] rest
  | c :: rest =>
    if isLineBreakChar c then acc.reverse :: pySplitlinesAux [] rest
    else pySplitlinesAux (c :: acc) rest

/-- Python `str.splitlines()`: no trailing empty line for a terminal newline,
and `\r\n` counts as a single break. -/
def pySplitlines (s : Str) : List Str := pySplitlinesAux [] s

/-- Worker for `findSub`: index of the first position where `pat` is a prefix. -/
def findSubAux (pat : Str) : Str → Nat → Option Nat
  | [], k => if pat.isPrefixOf ([] : Str) then some k else none
  | c :: rest, k =>
    if pat.isPrefixOf (c :: rest) then some k else findSubAux pat rest (k + 1)

/-- Python `hay.index(pat)` resp. `hay.find(pat)`: index of the first
occurrence of `pat` in `hay` (`none` models the `ValueError`). -/
def findSub (hay pat : Str) : Option Nat := findSubAux pat hay 0

/-- Python slice `t[s:]` with a possibly negative start. -/
def pySliceFrom (t : Str) (s : Int) : Str :=
  if 0 ≤ s then t.drop s.toNat else t.drop ((t.length + s).toNat)

/-- Worker for `pySplit`, with fuel bounded by the input length (each step
consumes at least one character, so the fuel never runs out on the initial
call). -/
def pySplitAux (c0 : Char) (sep : Str) : Nat → Str → Str → List Str
  | 0, acc, s => [acc.reverse ++ s]
  | _ + 1, acc, [] => [acc.reverse]
  | fuel + 1, acc, c :: cs =>
    if c = c0 ∧ sep.isPrefixOf cs then
      acc.reverse :: pySplitAux c0 sep fuel [] (cs.drop sep.length)
    else
      pySplitAux c0 sep fuel (c :: acc) cs

/-- Python `s.split(sep)` for a nonempty separator. -/
def pySplit (sep s : Str) : List Str :=
  match sep with
  | [] => [s]
  | c0 :: sepRest => pySplitAux c0 sepRest (s.length + 1) [] s

/-- Greedy nonempty munch of characters satisfying `p` (regex `X+` where the
following pattern element cannot match an `X`, so no backtracking arises). -/
def munch (p : Char → Bool) : Str → Option (Str × Str)
  | [] => none
  | c :: cs => if p c then some (c :: cs.takeWhile p, cs.dropWhile p) else none

/-- Consume one expected character. -/
def expectChar (c : Char) : Str → Option Str
  | [] => none
  | x :: xs => if x = c then some xs else none

/-- Consume an expected literal string. -/
def stripLit (lit : Str) (s : Str) : Option Str :=
  if lit.isPrefixOf s then some (s.drop lit.length) else none

/-- `timestamp_pattern = \d+:\d+:\d+:\d+` matched at the head of `s`; returns
the matched text and the rest. -/
def matchTc (s : Str) : Option (Str × Str) := do
  let (d1, s1) ← munch Char.isDigit s
  let s2 ← expectChar ':' s1
  let (d2, s3) ← munch Char.isDigit s2
  let s4 ← expectChar ':' s3
  let (d3, s5) ← munch Char.isDigit s4
  let s6 ← expectChar ':' s5
  let (d4, s7) ← munch Char.isDigit s6
  some (d1 ++ ':' :: d2 ++ ':' :: d3 ++ ':' :: d4, s7)

/-- The deterministic common prefix `tc \s+ - \s+` of both range patterns
(every character class at a choice point is disjoint from its successor, so
greedy munching is exact). -/
def matchRangeHead (s : Str) : Option (Str × Str) :=
  match matchTc s with
  | none => none
  | some (t1, s1) =>
    match munch pyIsSpace s1 with
    | none => none
    | some (w1, s2) =>
      match expectChar '-' s2 with
      | none => none
      | some s3 =>
        match munch pyIsSpace s3 with
        | none => none
        | some (w2, s4) => some (t1 ++ w1 ++ '-' :: w2, s4)

/-- The router's range probe `\d+:\d+:\d+:\d+\s+-\s+\d+:\d+:\d+:\d+` matched at
the head of `s` (parse_docx line 63: note it has no `(null)` alternative). -/
def matchTcTc (s : Str) : Option (Str × Str) :=
  match matchRangeHead s with
  | none => none
  | some (pre, s4) =>
    match matchTc s4 with
    | none => none
    | some (t2, rest) => some (pre ++ t2, rest)

/-- `time_duration_pattern`: `tc \s+ - \s+ tc` or `tc \s+ - \s+ (null)`,
matched at the head of `s`.  Python tries the first alternative first; the
common prefix is deterministic, so factoring it out is exact. -/
def matchDurCore (s : Str) : Option (Str × Str) :=
  match matchRangeHead s with
  | none => none
  | some (pre, s4) =>
    match matchTc s4 with
    | some (t2, rest) => some (pre ++ t2, rest)
    | none =>
      match stripLit (str "(null)") s4 with
      | none => none
      | some rest => some (pre ++ str "(null)", rest)

/-- Combined `re.findall` and `re.split`: scans left to right, consuming
non-overlapping leftmost matches; returns (tokens, segments between them).
Fuel is bounded by the input length plus one: every step consumes at least one
character because every matcher above consumes at least one. -/
def reScanAux (m : Str → Option (Str × Str)) : Nat → Str → Str → List Str × List Str
  | 0, acc, s => ([], [acc.reverse ++ s])
  | _ + 1, acc, [] => ([], [acc.reverse])
  | fuel + 1, acc, c :: cs =>
    match m (c :: cs) with
    | some (tok, rest) =>
      let (toks, segs) := reScanAux m fuel [] rest
      (tok :: toks, acc.reverse :: segs)
    | none => reScanAux m fuel (c :: acc) cs

/-- `(re.findall(p, s), re.split(p, s))` for a pattern with matcher `m`. -/
def reScan (m : Str → Option (Str × Str)) (s : Str) : List Str × List Str :=
  reScanAux m (s.length + 1) [] s

/-- `re.search(p, s) is not None`: some suffix of `s` starts with a match. -/
def reSearch (m : Str → Option (Str × Str)) (s : Str) : Bool :=
  s.tails.any (fun t => (m t).isSome)

/-- Per-character accent folding table of `replace_umlauts`. -/
def foldChar (c : Char) : Str :=
  if c = 'ä' then str "ae"
  else if c = 'ü' then str "ue"
  else if c = 'ö' then str "oe"
  else if c = 'ß' then str "ss"
  else if c = 'Ä' then str "AE"
  else if c = 'Ü' then str "UE"
  else if c = 'Ö' then str "OE"
  else [c]

/-- `replace_umlauts` (parse_docx lines 16-32): `str.translate` with the
seven-entry vowel map. -/
def replace_umlauts : Str → Str
  | [] => []
  | c :: cs => foldChar c ++ replace_umlauts cs

/-- The accented alphabet handled by `replace_umlauts`. -/
def umlautAlpha : List Char := ['ä', 'ü', 'ö', 'ß', 'Ä', 'Ü', 'Ö']

/-- Python `str.upper()` restricted to the characters that can occur here:
ASCII letters, the German vowels, and `ß` (which uppercases to `SS`).  Other
non-ASCII characters pass through unchanged. -/
def upperChar (c : Char) : Str :=
  if c = 'ß' then str "SS"
  else if c = 'ä' then ['Ä']
  else if c = 'ö' then ['Ö']
  else if c = 'ü' then ['Ü']
  else [c.toUpper]

/-- Python `str.upper()` over the model alphabet. -/
def pyUpper : Str → Str
  | [] => []
  | c :: cs => upperChar c ++ pyUpper cs

/-- Numeric value of a digit string. -/
def digitsVal (ds : Str) : Nat := ds.foldl (fun n c => 10 * n + (c.toNat - 48)) 0

/-- Python `str.strip()` (whitespace on both ends). -/
def pyStrip (s : Str) : Str :=
  ((s.dropWhile pyIsSpace).reverse.dropWhile pyIsSpace).reverse

/-- Python `int(s)`: optional surrounding whitespace, optional sign, nonempty
digit run (digit-grouping underscores are not modelled; no input exercised here
contains them).  `none` models the `ValueError`. -/
def pyInt (s : Str) : Option Int :=
  match pyStrip s with
  | '-' :: ds => if ds ≠ [] ∧ ds.all Char.isDigit then some (-(digitsVal ds : Int)) else none
  | '+' :: ds => if ds ≠ [] ∧ ds.all Char.isDigit then some (digitsVal ds) else none
  | ds => if ds ≠ [] ∧ ds.all Char.isDigit then some (digitsVal ds) else none

/-- A raw record as built by both dialect parsers (the Python dict with keys
speaker, dialogue, take_num, start, end). -/
structure RawRecord where
  speaker : Str
  dialogue : Str
  take_num : Str
  start : Str
  «end» : Str
deriving DecidableEq, Repr

/-- `speaker_pattern = [A-ZÄÖÜ .]+:` character class. -/
def speakerClassChar (c : Char) : Bool :=
  ('A' ≤ c ∧ c ≤ 'Z') ∨ c ∈ ['Ä', 'Ö', 'Ü', ' ', '.']

/-- `re.match(speaker_pattern, s)` (anchored at the start, not at the end). -/
def speakerMatch (s : Str) : Bool :=
  match munch speakerClassChar s with
  | some (_, ':' :: _) => true
  | _ => false

/-- `re.match(num_pattern, s)` with `num_pattern = \d+\/\d+`. -/
def numMatch (s : Str) : Bool :=
  match munch Char.isDigit s with
  | some (_, '/' :: rest) => (munch Char.isDigit rest).isSome
  | _ => false

/-- The line filter applied to every segment in both parsers:
`[j for j in m.splitlines() if j not in ["\xa0", "", "\xa0 "]]`. -/
def keepLine (j : Str) : Bool := j ∉ [str " ", ([] : Str), str "  "]

/-- Filtered lines of one segment. -/
def segLines (m : Str) : List Str := (pySplitlines m).filter keepLine

/-- `line[0].startswith("Take ")`. -/
def startsTakeWord (l : Str) : Bool := (str "Take ").isPrefixOf l

/-- Inner `while True` loop of `parse_tabular_format` (lines 102-156), one take
segment.  `tstart`/`tend` are the segment's timecode pair; the first list
argument is the mutable `line`; `tn` is the function-scoped `take_num` variable
(`none` = not yet assigned, so reading it raises `NameError`); `acc` is the
shared `data` list.  Returns the grown `data` and the final `take_num`.  The
fuel argument (one more than the line count at entry) only serves termination:
every loop iteration removes at least one element of `line`, so the fuel never
runs out on the calls made by `tabSegs`. -/
def tabInner (tstart tend : Str) :
    Nat → List Str → Option Str → List RawRecord → PyRes (List RawRecord × Option Str)
  | 0, _, tn, acc => .ok (acc, tn)
  | _ + 1, [], tn, acc => .ok (acc, tn)
  | fuel + 1, l0 :: rest, tn, acc =>
    if speakerMatch l0 then
      -- speaker = line[0][:-1]
      let speaker := l0.dropLast
      match rest with
      | [] => .exn .indexError        -- dialogue = line[1] out of range
      | l1 :: rest2 =>
        match rest2 with
        | [] =>
          -- next = 2 >= len(line): emit the record and break
          match tn with
          | none => .exn .nameError   -- take_num referenced before assignment
          | some v => .ok (acc ++ [⟨speaker, l1, v, tstart, tend⟩], tn)
        | l2 :: rest3 =>
          -- continuation check on line[2]
          let isThree : Bool := ¬ speakerMatch l2 ∧ ¬ numMatch l2
          let dialogue := if isThree then l1 ++ l2 else l1
          if isThree then
            match rest3 with
            | [] => .ok (acc, tn)     -- next >= len(line): break, record dropped
            | l3 :: rest4 =>
              if numMatch l3 then
                tabInner tstart tend fuel rest4 (some l3)
                  (acc ++ [⟨speaker, dialogue, l3, tstart, tend⟩])
              else if speakerMatch l3 then
                match tn with
                | none => .exn .nameError
                | some v =>
                  tabInner tstart tend fuel rest3 tn
                    (acc ++ [⟨speaker, dialogue, v, tstart, tend⟩])
              else
                -- line not advanced: append, then the stuck guard breaks
                match tn with
                | none => .exn .nameError
                | some v => .ok (acc ++ [⟨speaker, dialogue, v, tstart, tend⟩], tn)
          else
            -- next = 2; line[2] is a take number or a speaker label
            if numMatch l2 then
              tabInner tstart tend fuel rest3 (some l2)
                (acc ++ [⟨speaker, dialogue, l2, tstart, tend⟩])
            else if speakerMatch l2 then
              match tn with
              | none => .exn .nameError
              | some v =>
                tabInner tstart tend fuel rest2 tn
                  (acc ++ [⟨speaker, dialogue, v, tstart, tend⟩])
            else
              -- unreachable (isThree is false), kept for faithfulness
              match tn with
              | none => .exn .nameError
              | some v => .ok (acc ++ [⟨speaker, dialogue, v, tstart, tend⟩], tn)
    else if numMatch l0 then
      -- bare take-number event; note: the take_num VARIABLE is not updated
      .ok (acc ++ [⟨[], [], l0, tstart, tend⟩], tn)
    else
      .ok (acc, tn)

/-- Segment loop of `parse_tabular_format` (lines 90-159): walks the split
segments, consuming the timestamp list two at a time. -/
def tabSegs (ts : List Str) :
    List Str → Nat → Option Str → List RawRecord → PyRes (Nat × List RawRecord)
  | [], i, _, acc => .ok (i, acc)
  | m :: rest, i, tn, acc =>
    match segLines m with
    | [] => tabSegs ts rest i tn acc
    | l0 :: lrest =>
      if startsTakeWord l0 then tabSegs ts rest i tn acc
      else if i ≥ ts.length then .ok (i, acc)
      else
        match ts.get? i, ts.get? (i + 1) with
        | some tstart, some tend =>
          match tabInner tstart tend (lrest.length + 2) (l0 :: lrest) tn acc with
          | .ok (acc2, tn2) => tabSegs ts rest (i + 2) tn2 acc2
          | .exn e => .exn e
        | _, _ => .exn .indexError    -- timestamps[i + 1] out of range

/-- `parse_tabular_format` with the final timestamp cursor exposed (the cursor
`i` is the function's real loop state; `i / 2` is the number of timecode pairs
consumed). -/
def parse_tabular_core (text : Str) : PyRes (Nat × List RawRecord) :=
  let scan := reScan matchTc text
  tabSegs scan.1 scan.2 0 none []

/-- `parse_tabular_format` (lines 75-161). -/
def parse_tabular_format (text : Str) : PyRes (String × List RawRecord) :=
  match parse_tabular_core text with
  | .ok (_, data) => .ok ("OK", data)
  | .exn e => .exn e

/-- Result of processing one line of a takebar take: skip it, emit a record
with updated loop state, or raise inside the per-take try (carrying the values
the function-scoped `speaker` and `take_num` variables hold at that point). -/
inductive TBStep where
  | skip : TBStep
  | emit (r : RawRecord) (spk : Option Str) (tn : Str) (inK inA : Bool) : TBStep
  | fail (spk : Option Str) (tn : Str) : TBStep
deriving DecidableEq, Repr

/-- Lines 235-257 of `parse_takebar_format`: interpret the (possibly stripped)
column list `a` of one tab-containing line.  `t0`/`t1` are the segment's pair,
`spk` the current `speaker` binding (`none` = unbound), `tn` the current
`take_num`, `inK`/`inA` the sticky flags as updated by the strip phase. -/
def tbTail (t0 t1 : Str) (spk : Option Str) (tn : Str) (inK inA : Bool)
    (a : List Str) : TBStep :=
  match a with
  | [] => .fail spk tn                    -- a[0] out of range
  | h :: arest =>
    if h = [] then
      -- dialogue continuation: dialogue = a[1], previous speaker reused
      match arest with
      | [] => .fail spk tn                -- a[1] out of range
      | d :: _ =>
        match spk with
        | none => .fail spk tn            -- NameError: speaker never assigned
        | some sp => .emit ⟨sp, d, tn, t0, t1⟩ spk tn inK inA
    else if h = str "A-TAKE" then
      match arest with
      | [] => .fail (some []) tn          -- handler set speaker = "" then a[1] raised
      | s1 :: arest2 =>
        match arest2 with
        | [] => .emit ⟨[], s1, tn ++ ['A'], t0, t1⟩ (some []) (tn ++ ['A']) inK true
        | d2 :: _ => .emit ⟨s1, d2, tn ++ ['A'], t0, t1⟩ (some s1) (tn ++ ['A']) inK true
    else if h = str "KOPIERER" then
      match arest with
      | [] => .fail spk tn                -- speaker = a[1] raised
      | s1 :: arest2 =>
        match arest2 with
        | [] => .fail (some s1) tn        -- dialogue = a[2] raised after speaker = a[1]
        | d2 :: _ => .emit ⟨s1, d2, tn, t0, t1⟩ (some s1) tn true inA
    else
      match arest with
      | [] => .emit ⟨h, [], tn, t0, t1⟩ (some h) tn inK inA
      | d2 :: _ => .emit ⟨h, d2, tn, t0, t1⟩ (some h) tn inK inA

/-- One iteration of the takebar per-take line loop (lines 199-267) on line
`l0`.  `ts` is the flat timestamp list and `i` the already-advanced cursor: the
tab-less speaker-only branch reads `timestamps[i]`/`timestamps[i+1]` after the
segment's own `i += 2`. -/
def tbStep (ts : List Str) (i : Nat) (t0 t1 : Str) (spk : Option Str) (tn : Str)
    (inK inA : Bool) (l0 : Str) : TBStep :=
  if l0 = ['\t'] then .skip
  else if l0.contains '\t' then
    let a0 := pySplit ['\t'] l0
    -- in_kopierer: strip one leading empty column, else clear the flag
    let stripK : Bool := inK ∧ a0.head? = some []
    let a1 := if stripK then a0.drop 1 else a0
    if inA then
      match a1.head? with
      | none => .fail spk tn              -- a[0] out of range
      | some h =>
        if h = [] then tbTail t0 t1 spk (tn ++ ['A']) stripK true (a1.drop 1)
        else tbTail t0 t1 spk tn stripK false a1
    else tbTail t0 t1 spk tn stripK false a1
  else
    -- no tab: speaker-only record, read at the advanced cursor
    match ts.get? i, ts.get? (i + 1) with
    | some s, some e => .emit ⟨l0, [], tn, s, e⟩ (some l0) tn inK inA
    | _, _ => .fail (some l0) tn          -- timestamps[i] / [i+1] out of range

/-- The takebar per-take line loop: folds `tbStep` over the remaining lines.
Returns (records emitted, final `speaker`, final `take_num`, whether the
per-take `try` caught an exception). -/
def tbLines (ts : List Str) (i : Nat) (t0 t1 : Str) :
    List Str → Option Str → Str → Bool → Bool → List RawRecord →
    List RawRecord × Option Str × Str × Bool
  | [], spk, tn, _, _, acc => (acc, spk, tn, false)
  | l0 :: rest, spk, tn, inK, inA, acc =>
    match tbStep ts i t0 t1 spk tn inK inA l0 with
    | .skip => tbLines ts i t0 t1 rest spk tn inK inA acc
    | .emit r spk2 tn2 inK2 inA2 => tbLines ts i t0 t1 rest spk2 tn2 inK2 inA2 (acc ++ [r])
    | .fail spk2 tn2 => (acc, spk2, tn2, true)

/-- One non-skipped takebar segment (lines 192-278): first line becomes the
take number (spaces and the decorative marker stripped); on any exception the
`except` arm appends exactly one `ERROR` sentinel carrying the current
`take_num` and the segment's pair. -/
def tbTake (ts : List Str) (i : Nat) (t0 t1 : Str) (spk : Option Str)
    (l0 : Str) (lrest : List Str) : List RawRecord × Option Str :=
  let tn0 := l0.filter (fun c => ¬ (c = ' ' ∨ c = '‹'))
  match tbLines ts i t0 t1 lrest spk tn0 false false [] with
  | (recs, spk2, tnF, failed) =>
    if failed then (recs ++ [⟨[], str "ERROR", tnF, t0, t1⟩], spk2)
    else (recs, spk2)

/-- Segment loop of `parse_takebar_format` (lines 184-278). -/
def tbSegs (ts : List Str) :
    List Str → Nat → Option Str → List RawRecord → PyRes (List RawRecord)
  | [], _, _, acc => .ok acc
  | m :: rest, i, spk, acc =>
    match segLines m with
    | [] => tbSegs ts rest i spk acc
    | l0 :: lrest =>
      if startsTakeWord l0 ∨ l0 :: lrest = [str " - "] then tbSegs ts rest i spk acc
      else if i ≥ ts.length then .ok acc
      else
        match ts.get? i, ts.get? (i + 1) with
        | some t0, some t1 =>
          match tbTake ts (i + 2) t0 t1 spk l0 lrest with
          | (recs, spk2) => tbSegs ts rest (i + 2) spk2 (acc ++ recs)
        | _, _ => .exn .indexError      -- timestamps[i + 1] out of range

/-- Lines 176-179: each `re.findall(time_duration_pattern, ...)` match is
unpacked by `a, b = i.split(" - ")`; a match whose inner whitespace is not a
single space on each side does not split into exactly two parts and the unpack
raises `ValueError`. -/
def unpackPairs : List Str → PyRes (List Str)
  | [] => .ok []
  | tok :: rest =>
    match pySplit (str " - ") tok with
    | [a, b] =>
      match unpackPairs rest with
      | .ok l => .ok (a :: b :: l)
      | .exn e => .exn e
    | _ => .exn .valueError

/-- `parse_takebar_format` (lines 164-279).  `re.findall` runs on the original
text but `re.split` runs on the text with backticks removed (line 181). -/
def parse_takebar_format (text : Str) : PyRes (String × List RawRecord) :=
  match unpackPairs (reScan matchDurCore text).1 with
  | .exn e => .exn e
  | .ok ts =>
    match tbSegs ts (reScan matchDurCore (text.filter (fun c => c ≠ Char.ofNat 96))).2 0 none [] with
    | .exn e => .exn e
    | .ok data => .ok ("OK", data)

/-- Line 61: `re.search(r"\d+:\d+:\d+:\d+", body_text)`. -/
def hasTimestamp (body : Str) : Bool := reSearch matchTc body

/-- Line 63: the dialect router probes only the `tc - tc` range pattern
(without the `(null)` alternative of `time_duration_pattern`). -/
def routeTakebar (body : Str) : Bool := reSearch matchTcTc body

/-- `parse_docx` (lines 35-72), taking the extracted document text and the
first table's first populated cell text as inputs (the extraction layer is out
of scope).  When the anchor is not found, `text.index` raises `ValueError`,
the bare `except` sets `success = False`, and line 61 then reads the never
assigned `body_text`, raising an uncaught `NameError` (UnboundLocalError). -/
def parse_docx (text ftt : Str) : PyRes (String × Option (List RawRecord)) :=
  match findSub text ftt with
  | none => .exn .nameError
  | some idx =>
    let body := pySliceFrom text ((idx : Int) - 1)
    if ¬ hasTimestamp body then .ok ("Error: No timestamps found", none)
    else
      match (if routeTakebar body then parse_takebar_format body
             else parse_tabular_format body) with
      | .exn e => .exn e
      | .ok (st, res) => if st ≠ "OK" then .ok (st, none) else .ok (st, some res)

/-- The `TakeNr` cell: an int after fractional collapsing, else the residual
string. -/
inductive TakeNrVal where
  | int : Int → TakeNrVal
  | strv : Str → TakeNrVal
deriving DecidableEq, Repr

/-- The trailing annotation alphabet of `adapt_data` (line 291). -/
def annotChars : List Char := ['A', 'a', 'Ü', 'ü']

/-- A row of the final table, fields in the fixed output column order
`TakeNr, In, Out, Typ, Rolle, Text` (lines 299-300). -/
structure NormalizedRecord where
  TakeNr : TakeNrVal
  In : Str
  Out : Str
  Typ : Str
  Rolle : Str
  Text : Str
deriving DecidableEq, Repr

/-- The per-row body of `adapt_data` (lines 290-297).  `row["take_num"][-1]`
raises `IndexError` on an empty take number; `int(...)` raises `ValueError`
when the text after the first `/` is not an integer literal. -/
def adaptRow (r : RawRecord) : PyRes NormalizedRecord :=
  match r.take_num.getLast? with
  | none => .exn .indexError
  | some last =>
    let typ := if last ∈ annotChars then replace_umlauts [last] else []
    let tn1 := if last ∈ annotChars then r.take_num.dropLast else r.take_num
    if tn1.contains '/' then
      match (pySplit ['/'] tn1).get? 1 with
      | none => .exn .indexError
      | some part =>
        match pyInt part with
        | none => .exn .valueError
        | some n =>
          .ok ⟨.int n, r.start, r.«end», typ,
               pyUpper (replace_umlauts r.speaker), replace_umlauts r.dialogue⟩
    else
      .ok ⟨.strv tn1, r.start, r.«end», typ,
           pyUpper (replace_umlauts r.speaker), replace_umlauts r.dialogue⟩

/-- `df.iterrows()` in order; the first raising row aborts the whole call. -/
def adaptAll : List RawRecord → PyRes (List NormalizedRecord)
  | [] => .ok []
  | r :: rest =>
    match adaptRow r with
    | .exn e => .exn e
    | .ok t =>
      match adaptAll rest with
      | .ok l => .ok (t :: l)
      | .exn e => .exn e

/-- `adapt_data` (lines 282-301).  On an empty record list the frame has only
the `Typ` column and the six-name `df.columns` assignment raises `ValueError`
(length mismatch). -/
def adapt_data (rs : List RawRecord) : PyRes (List NormalizedRecord) :=
  if rs = [] then .exn .valueError else adaptAll rs

/-- Modelled from the spec: the top-level operation `parse(document) ->
(status, table|None)` of spec section 6.  The UI glue that feeds a successful
`parse_docx` result through the Record Normalizer (`adapt_data`) is part of
this repository but not under `src/`; per spec section 2 the control flow is
Router → dialect parser → Normalizer → table. -/
def parse (text ftt : Str) : PyRes (String × Option (List NormalizedRecord)) :=
  match parse_docx text ftt with
  | .exn e => .exn e
  | .ok (st, none) => .ok (st, none)
  | .ok (st, some raw) =>
    match adapt_data raw with
    | .exn e => .exn e
    | .ok tbl => .ok (st, some tbl)

/-! ### Helper lemmas about the text normalizer -/

theorem foldChar_eq_of_not_mem {c : Char} (hc : c ∉ umlautAlpha) : foldChar c = [c] := by
  simp only [umlautAlpha, List.mem_cons, List.not_mem_nil, or_false, not_or] at hc
  obtain ⟨h1, h2, h3, h4, h5, h6, h7⟩ := hc
  simp [foldChar, h1, h2, h3, h4, h5, h6, h7]

theorem foldChar_safe : ∀ c ∈ umlautAlpha, ∀ c' ∈ foldChar c, c' ∉ umlautAlpha := by decide

theorem foldChar_not_umlaut {c c' : Char} (h : c' ∈ foldChar c) : c' ∉ umlautAlpha := by
  by_cases hc : c ∈ umlautAlpha
  · exact foldChar_safe c hc c' h
  · rw [foldChar_eq_of_not_mem hc] at h
    rcases List.mem_singleton.mp h with rfl
    exact hc

theorem mem_replace_umlauts {s : Str} {c' : Char} (h : c' ∈ replace_umlauts s) :
    ∃ c ∈ s, c' ∈ foldChar c := by
  induction s with
  | nil => simp [replace_umlauts] at h
  | cons c cs ih =>
    rw [replace_umlauts] at h
    rcases List.mem_append.mp h with h1 | h2
    · exact ⟨c, List.mem_cons_self c cs, h1⟩
    · obtain ⟨d, hd, hcd⟩ := ih h2
      exact ⟨d, List.mem_cons_of_mem c hd, hcd⟩

theorem replace_umlauts_eq_self {s : Str} (h : ∀ c ∈ s, c ∉ umlautAlpha) :
    replace_umlauts s = s := by
  induction s with
  | nil => rfl
  | cons c cs ih =>
    rw [replace_umlauts, foldChar_eq_of_not_mem (h c (List.mem_cons_self c cs)),
        ih (fun x hx => h x (List.mem_cons_of_mem c hx))]
    rfl

/-! ### Claims C9, C1, C2 -/

/-- C9: the accent-folding function `replace_umlauts` is total and
deterministic (it is a Lean function); after one application no character of
the fixed accented alphabet ä, ü, ö, ß, Ä, Ü, Ö remains in the output, and
applying it twice equals applying it once. -/
theorem c9_replace_umlauts_total_idem :
    (∀ (s : Str) (c : Char), c ∈ replace_umlauts s → c ∉ umlautAlpha) ∧
    (∀ s : Str, replace_umlauts (replace_umlauts s) = replace_umlauts s) := by
  constructor
  · intro s c h
    obtain ⟨d, _, hcd⟩ := mem_replace_umlauts h
    exact foldChar_not_umlaut hcd
  · intro s
    apply replace_umlauts_eq_self
    intro c h
    obtain ⟨d, _, hcd⟩ := mem_replace_umlauts h
    exact foldChar_not_umlaut hcd

/-- C9 witness: instantiating the theorem at concrete strings. -/
theorem c9_witness :
    'a' ∉ umlautAlpha ∧
    replace_umlauts (replace_umlauts (str "Größe")) = replace_umlauts (str "Größe") :=
  ⟨c9_replace_umlauts_total_idem.1 (str "ä") 'a' (by decide),
   c9_replace_umlauts_total_idem.2 (str "Größe")⟩

/-- C1: the claim says `parse` always returns `("OK", table)` or
`("Error: No timestamps found", None)` and never raises.  The code violates
this: when the anchor text is not found, `text.index` raises, the bare
`except` swallows it, and line 61 then reads the never-assigned `body_text`,
so an `UnboundLocalError` (a `NameError`) escapes `parse_docx`.  The
`success` flag and the check at lines 70-71 show that returning the error
status was the intent, so this is a bug in the code, not in the claim.  This
theorem evaluates the model at such a failing input. -/
theorem c1_missing_anchor_raises :
    parse_docx (str "hello 0:0:0:1 world") (str "ZZZ") = .exn .nameError := by decide

/-- C2 counterexample: the claim says that when the anchor cannot be located
but a timecode is present, parsing proceeds on the full text as a degraded
fallback and the operation does not fail.  In the code it does fail: the
input below contains a timecode and no anchor occurrence, and `parse_docx`
raises `NameError` instead of proceeding. -/
theorem c2_counterexample :
    hasTimestamp (str "Szene 0:0:7:3 Ende") = true ∧
    findSub (str "Szene 0:0:7:3 Ende") (str "Anker") = none ∧
    parse_docx (str "Szene 0:0:7:3 Ende") (str "Anker") = .exn .nameError := by decide

/-- C2 amended: whenever the anchor string cannot be located in the document
text, `parse_docx` raises an unhandled `NameError` (the never-assigned
`body_text` is read at line 61), regardless of whether timecodes are present;
there is no degraded fallback to the full text. -/
theorem c2_amended_missing_anchor (text ftt : Str) (h : findSub text ftt = none) :
    parse_docx text ftt = .exn .nameError := by
  unfold parse_docx
  rw [h]

/-- C2 witness: the amended theorem applied at a concrete input. -/
theorem c2_witness :
    findSub (str "Takeliste 0:0:1:2") (str "XYZ") = none ∧
    parse_docx (str "Takeliste 0:0:1:2") (str "XYZ") = .exn .nameError :=
  ⟨by decide, c2_amended_missing_anchor _ _ (by decide)⟩

/-! ### Helper lemmas about the record normalizer -/

theorem adaptAll_ok : ∀ {rs : List RawRecord} {ts : List NormalizedRecord},
    adaptAll rs = .ok ts →
    ts.length = rs.length ∧
    ∀ j (hj : j < ts.length) (hr : j < rs.length),
      adaptRow (rs.get ⟨j, hr⟩) = .ok (ts.get ⟨j, hj⟩) := by
  intro rs
  induction rs with
  | nil =>
    intro ts h
    rw [adaptAll] at h
    cases h
    exact ⟨rfl, fun j hj hr => absurd hr (by simp)⟩
  | cons r rest ih =>
    intro ts h
    rw [adaptAll] at h
    split at h
    · exact absurd h (by simp)
    next t heq =>
      split at h
      next l hrest =>
        cases h
        obtain ⟨hlen, hget⟩ := ih hrest
        refine ⟨by simp [hlen], ?_⟩
        intro j hj hr
        match j with
        | 0 => exact heq
        | j + 1 =>
          exact hget j (by simpa using hj) (by simpa using hr)
      · exact absurd h (by simp)

theorem adaptRow_fields : ∀ {r : RawRecord} {t : NormalizedRecord},
    adaptRow r = .ok t →
    t.In = r.start ∧ t.Out = r.«end» ∧
    t.Rolle = pyUpper (replace_umlauts r.speaker) ∧
    t.Text = replace_umlauts r.dialogue ∧
    (t.Typ = [] ∨ ∃ c, c ∈ annotChars ∧ r.take_num.getLast? = some c ∧
      t.Typ = replace_umlauts [c]) := by
  intro r t h
  unfold adaptRow at h
  split at h
  · exact absurd h (by simp)
  next last hlast =>
    by_cases hann : last ∈ annotChars <;>
      simp only [hann, if_true, if_false, reduceIte] at h <;>
      repeat' split at h
    all_goals first
      | (injection h; done)
      | (injection h with h2; subst h2; exact ⟨rfl, rfl, rfl, rfl, .inr ⟨last, hann, hlast, rfl⟩⟩)
      | (injection h with h2; subst h2; exact ⟨rfl, rfl, rfl, rfl, .inl rfl⟩)

/-- C3: whenever the top-level operation returns status "OK", the returned
table is the ordered, one-to-one image of the raw parser records under the
record normalizer: fixed column order TakeNr, In, Out, Typ, Rolle, Text (the
field order of `NormalizedRecord`), with In/Out passed through from
start/end, Rolle the uppercased accent-folded speaker, Text the accent-folded
dialogue, and Typ empty or the folded trailing annotation character split off
the take number.  The glue that feeds `parse_docx` results through
`adapt_data` is modelled from the spec (see `parse`). -/
theorem c3_ok_table_normalized (text ftt : Str) (tbl : List NormalizedRecord)
    (h : parse text ftt = .ok ("OK", some tbl)) :
    ∃ raw, parse_docx text ftt = .ok ("OK", some raw) ∧ adapt_data raw = .ok tbl ∧
      tbl.length = raw.length ∧
      ∀ j (hj : j < tbl.length) (hr : j < raw.length),
        (tbl.get ⟨j, hj⟩).In = (raw.get ⟨j, hr⟩).start ∧
        (tbl.get ⟨j, hj⟩).Out = (raw.get ⟨j, hr⟩).«end» ∧
        (tbl.get ⟨j, hj⟩).Rolle = pyUpper (replace_umlauts (raw.get ⟨j, hr⟩).speaker) ∧
        (tbl.get ⟨j, hj⟩).Text = replace_umlauts (raw.get ⟨j, hr⟩).dialogue ∧
        ((tbl.get ⟨j, hj⟩).Typ = [] ∨
          ∃ c, c ∈ annotChars ∧ (raw.get ⟨j, hr⟩).take_num.getLast? = some c ∧
            (tbl.get ⟨j, hj⟩).Typ = replace_umlauts [c]) := by
  unfold parse at h
  split at h
  · injection h
  · injection h with h2
    injection h2 with _ h3
    injection h3
  next st raw hdocx =>
    split at h
    · injection h
    next tbl2 hadapt =>
      injection h with h2
      injection h2 with hst htbl
      injection htbl with htbl
      subst hst
      subst htbl
      refine ⟨raw, hdocx, hadapt, ?_⟩
      have hall : adaptAll raw = .ok tbl2 := by
        unfold adapt_data at hadapt
        split at hadapt
        · injection hadapt
        · exact hadapt
      obtain ⟨hlen, hget⟩ := adaptAll_ok hall
      refine ⟨hlen, fun j hj hr => adaptRow_fields (hget j hj hr)⟩

/-- C3 witness: a full concrete run of the pipeline on a tabular document. -/
theorem c3_witness :
    ∃ raw,
      parse_docx (str "Titel\nTake 1\n0:0:1:0\nHANS:\nHallo\n1/1\n0:0:2:0")
          (str "Take 1") = .ok ("OK", some raw) ∧
      adapt_data raw =
        .ok [⟨.int 1, str "0:0:1:0", str "0:0:2:0", [], str "HANS", str "Hallo"⟩] ∧
      ([(⟨.int 1, str "0:0:1:0", str "0:0:2:0", [], str "HANS", str "Hallo"⟩ :
          NormalizedRecord)]).length = raw.length ∧
      ∀ j (hj : j < ([(⟨.int 1, str "0:0:1:0", str "0:0:2:0", [], str "HANS",
            str "Hallo"⟩ : NormalizedRecord)]).length) (hr : j < raw.length),
        (([(⟨.int 1, str "0:0:1:0", str "0:0:2:0", [], str "HANS", str "Hallo"⟩ :
            NormalizedRecord)]).get ⟨j, hj⟩).In = (raw.get ⟨j, hr⟩).start ∧
        (([(⟨.int 1, str "0:0:1:0", str "0:0:2:0", [], str "HANS", str "Hallo"⟩ :
            NormalizedRecord)]).get ⟨j, hj⟩).Out = (raw.get ⟨j, hr⟩).«end» ∧
        (([(⟨.int 1, str "0:0:1:0", str "0:0:2:0", [], str "HANS", str "Hallo"⟩ :
            NormalizedRecord)]).get ⟨j, hj⟩).Rolle =
          pyUpper (replace_umlauts (raw.get ⟨j, hr⟩).speaker) ∧
        (([(⟨.int 1, str "0:0:1:0", str "0:0:2:0", [], str "HANS", str "Hallo"⟩ :
            NormalizedRecord)]).get ⟨j, hj⟩).Text =
          replace_umlauts (raw.get ⟨j, hr⟩).dialogue ∧
        ((([(⟨.int 1, str "0:0:1:0", str "0:0:2:0", [], str "HANS", str "Hallo"⟩ :
            NormalizedRecord)]).get ⟨j, hj⟩).Typ = [] ∨
          ∃ c, c ∈ annotChars ∧ (raw.get ⟨j, hr⟩).take_num.getLast? = some c ∧
            (([(⟨.int 1, str "0:0:1:0", str "0:0:2:0", [], str "HANS", str "Hallo"⟩ :
              NormalizedRecord)]).get ⟨j, hj⟩).Typ = replace_umlauts [c]) :=
  c3_ok_table_normalized _ _ _ (by decide)

/-! ### Pair-provenance lemmas for the two parsers -/

theorem tabInner_records (tstart tend : Str) :
    ∀ (fuel : Nat) (lines : List Str) (tn : Option Str) (acc out : List RawRecord)
      (tn2 : Option Str),
      tabInner tstart tend fuel lines tn acc = .ok (out, tn2) →
      ∃ d, out = acc ++ d ∧ ∀ r ∈ d, r.start = tstart ∧ r.«end» = tend := by
  intro fuel
  induction fuel with
  | zero =>
    intro lines tn acc out tn2 h
    rw [tabInner] at h
    injection h with h2
    injection h2 with h3 _
    exact ⟨[], by simp [h3.symm], by simp⟩
  | succ fuel ih =>
    intro lines tn acc out tn2 h
    match lines with
    | [] =>
      rw [tabInner] at h
      injection h with h2
      injection h2 with h3 _
      exact ⟨[], by simp [h3.symm], by simp⟩
    | l0 :: rest =>
      simp only [tabInner] at h
      repeat' split at h
      all_goals first
        | (injection h; done)
        | -- terminal branch returning .ok (acc, tn)
          (injection h with h2
           injection h2 with h3 htn
           subst h3
           exact ⟨[], (List.append_nil _).symm, fun r hr => absurd hr (List.not_mem_nil r)⟩)
        | -- terminal branch returning .ok (acc ++ [rec], tn)
          (injection h with h2
           injection h2 with h3 htn
           subst h3
           refine ⟨_ :: ([] : List RawRecord), rfl, ?_⟩
           intro r hr
           rcases List.mem_singleton.mp hr with rfl
           exact ⟨rfl, rfl⟩)
        | -- recursive branches
          (obtain ⟨d, hd, hp⟩ := ih _ _ _ _ _ h
           refine ⟨_ :: d, hd.trans (List.append_assoc _ _ _), ?_⟩
           intro r hr
           rcases List.mem_cons.mp hr with rfl | hr2
           · exact ⟨rfl, rfl⟩
           · exact hp r hr2)

theorem tbTail_emit_pair {t0 t1 : Str} {spk : Option Str} {tn : Str}
    {inK inA : Bool} {a : List Str} {r : RawRecord} {spk2 : Option Str}
    {tn2 : Str} {inK2 inA2 : Bool}
    (h : tbTail t0 t1 spk tn inK inA a = .emit r spk2 tn2 inK2 inA2) :
    r.start = t0 ∧ r.«end» = t1 := by
  unfold tbTail at h
  repeat' split at h
  all_goals first
    | (injection h; done)
    | (injection h with h2 _ _ _ _
       subst h2
       exact ⟨rfl, rfl⟩)

theorem tbStep_emit_pair {ts : List Str} {i : Nat} {t0 t1 : Str}
    {spk : Option Str} {tn : Str} {inK inA : Bool} {l0 : Str} {r : RawRecord}
    {spk2 : Option Str} {tn2 : Str} {inK2 inA2 : Bool}
    (h : tbStep ts i t0 t1 spk tn inK inA l0 = .emit r spk2 tn2 inK2 inA2) :
    (r.start = t0 ∧ r.«end» = t1) ∨
    (ts.get? i = some r.start ∧ ts.get? (i + 1) = some r.«end») := by
  simp only [tbStep] at h
  repeat' split at h
  all_goals first
    | (injection h; done)
    | exact .inl (tbTail_emit_pair h)
    | -- the tab-less speaker-only branch reads the advanced cursor
      (injection h with h2 _ _ _ _
       subst h2
       exact .inr ⟨by assumption, by assumption⟩)

theorem tbLines_records (ts : List Str) (i : Nat) (t0 t1 : Str) :
    ∀ (lines : List Str) (spk : Option Str) (tn : Str) (inK inA : Bool)
      (acc : List RawRecord),
      ∃ d, (tbLines ts i t0 t1 lines spk tn inK inA acc).1 = acc ++ d ∧
        ∀ r ∈ d, (r.start = t0 ∧ r.«end» = t1) ∨
          (ts.get? i = some r.start ∧ ts.get? (i + 1) = some r.«end») := by
  intro lines
  induction lines with
  | nil => intro spk tn inK inA acc; exact ⟨[], by simp [tbLines], by simp⟩
  | cons l0 rest ih =>
    intro spk tn inK inA acc
    rw [tbLines]
    cases hstep : tbStep ts i t0 t1 spk tn inK inA l0 with
    | skip => exact ih spk tn inK inA acc
    | emit r spk2 tn2 inK2 inA2 =>
      obtain ⟨d, hd, hp⟩ := ih spk2 tn2 inK2 inA2 (acc ++ [r])
      refine ⟨r :: d, by simp [hd, List.append_assoc], ?_⟩
      intro x hx
      rcases List.mem_cons.mp hx with rfl | hx2
      · exact tbStep_emit_pair hstep
      · exact hp x hx2
    | fail spk2 tn2 => exact ⟨[], by simp, by simp⟩

/-- C4 counterexample.  In the document below the timecode pairs are
("0:0:0:1", "0:0:0:2") for the first take segment and ("0:0:0:3", "0:0:0:4")
for the second, but the record emitted for the tab-less speaker-only line
"HANS" of the FIRST segment carries ("0:0:0:3", "0:0:0:4") — a pair that is
not its segment's pair and that is also carried by the second segment's
record, contradicting both the per-segment pair assignment and the no-sharing
part of the claim. -/
theorem c4_counterexample :
    unpackPairs (reScan matchDurCore
        (str "1\nHANS\n0:0:0:1 - 0:0:0:2\n2\nA\tB\n0:0:0:3 - 0:0:0:4\n")).1 =
      .ok [str "0:0:0:1", str "0:0:0:2", str "0:0:0:3", str "0:0:0:4"] ∧
    parse_takebar_format
        (str "1\nHANS\n0:0:0:1 - 0:0:0:2\n2\nA\tB\n0:0:0:3 - 0:0:0:4\n") =
      .ok ("OK",
        [⟨str "HANS", [], str "1", str "0:0:0:3", str "0:0:0:4"⟩,
         ⟨str "A", str "B", str "2", str "0:0:0:3", str "0:0:0:4"⟩]) := by decide

/-- C4 amended: in the tabular parser every record emitted while a segment is
processed carries that segment's pair; in the takebar parser every record
emitted by the per-take line loop carries either the segment's pair (t0, t1)
or — exactly in the tab-less speaker-only branch — the pair found at the
already-advanced cursor `timestamps[i]`, `timestamps[i+1]`, which is the NEXT
segment's pair when it exists, so such a pair can be shared with the
following segment's records. -/
theorem c4_amended_pair_provenance :
    (∀ (tstart tend : Str) (fuel : Nat) (lines : List Str) (tn : Option Str)
       (acc out : List RawRecord) (tn2 : Option Str),
       tabInner tstart tend fuel lines tn acc = .ok (out, tn2) →
       ∃ d, out = acc ++ d ∧ ∀ r ∈ d, r.start = tstart ∧ r.«end» = tend) ∧
    (∀ (ts : List Str) (i : Nat) (t0 t1 : Str) (lines : List Str)
       (spk : Option Str) (tn : Str) (inK inA : Bool) (acc : List RawRecord),
       ∃ d, (tbLines ts i t0 t1 lines spk tn inK inA acc).1 = acc ++ d ∧
         ∀ r ∈ d, (r.start = t0 ∧ r.«end» = t1) ∨
           (ts.get? i = some r.start ∧ ts.get? (i + 1) = some r.«end»)) :=
  ⟨fun tstart tend => tabInner_records tstart tend,
   fun ts i t0 t1 => tbLines_records ts i t0 t1⟩

/-- C4 witness: the amended theorem applied to one concrete tabular segment
and one concrete takebar line list. -/
theorem c4_witness :
    (∃ d, [⟨str "HANS", str "Hallo", str "1/1", str "0:0:9:0", str "0:0:9:5"⟩] =
        ([] : List RawRecord) ++ d ∧
      ∀ r ∈ d, r.start = str "0:0:9:0" ∧ r.«end» = str "0:0:9:5") ∧
    (∃ d, (tbLines [str "0:0:9:0", str "0:0:9:5"] 2 (str "0:0:9:0") (str "0:0:9:5")
        [str "X\tY"] none (str "7") false false []).1 = ([] : List RawRecord) ++ d ∧
      ∀ r ∈ d, (r.start = str "0:0:9:0" ∧ r.«end» = str "0:0:9:5") ∨
        ([str "0:0:9:0", str "0:0:9:5"].get? 2 = some r.start ∧
         [str "0:0:9:0", str "0:0:9:5"].get? 3 = some r.«end»)) :=
  ⟨c4_amended_pair_provenance.1 (str "0:0:9:0") (str "0:0:9:5") 3
      [str "HANS:", str "Hallo", str "1/1"] none []
      [⟨str "HANS", str "Hallo", str "1/1", str "0:0:9:0", str "0:0:9:5"⟩]
      (some (str "1/1")) (by decide),
   c4_amended_pair_provenance.2 [str "0:0:9:0", str "0:0:9:5"] 2
      (str "0:0:9:0") (str "0:0:9:5") [str "X\tY"] none (str "7") false false []⟩

/-! ### Totality of the takebar segment loop -/

theorem unpackPairs_even : ∀ {toks ts : List Str}, unpackPairs toks = .ok ts →
    2 ∣ ts.length := by
  intro toks
  induction toks with
  | nil =>
    intro ts h
    rw [unpackPairs] at h
    injection h with h2
    subst h2
    exact ⟨0, rfl⟩
  | cons tok rest ih =>
    intro ts h
    rw [unpackPairs] at h
    split at h
    · split at h
      next l hl =>
        injection h with h2
        subst h2
        obtain ⟨k, hk⟩ := ih hl
        exact ⟨k + 1, by simp [hk]; ring⟩
      · injection h
    · injection h

theorem tbSegs_total {ts : List Str} (hts : 2 ∣ ts.length) :
    ∀ (segs : List Str) (i : Nat) (spk : Option Str) (acc : List RawRecord),
      2 ∣ i → ∃ out, tbSegs ts segs i spk acc = .ok out := by
  intro segs
  induction segs with
  | nil => intro i spk acc _; exact ⟨acc, rfl⟩
  | cons m rest ih =>
    intro i spk acc hi
    rw [tbSegs]
    cases hsl : segLines m with
    | nil => exact ih i spk acc hi
    | cons l0 lrest =>
      by_cases hskip : startsTakeWord l0 ∨ l0 :: lrest = [str " - "]
      · simp only [hskip, if_true, reduceIte]
        exact ih i spk acc hi
      · simp only [hskip, if_false, reduceIte]
        by_cases hbreak : i ≥ ts.length
        · simp only [hbreak, if_true, reduceIte]
          exact ⟨acc, rfl⟩
        · simp only [hbreak, if_false, reduceIte]
          have hi1 : i + 1 < ts.length := by
            obtain ⟨a, ha⟩ := hi
            obtain ⟨b, hb⟩ := hts
            omega
          have h0 : ts.get? i = some (ts.get ⟨i, by omega⟩) := List.get?_eq_get (by omega)
          have h1 : ts.get? (i + 1) = some (ts.get ⟨i + 1, hi1⟩) := List.get?_eq_get hi1
          rw [h0, h1]
          dsimp only
          cases htk : tbTake ts (i + 2) (ts.get ⟨i, by omega⟩) (ts.get ⟨i + 1, hi1⟩)
              spk l0 lrest with
          | mk recs spk2 => exact ih (i + 2) spk2 (acc ++ recs) (by omega)

/-- C5: in the takebar parser no exception from take processing reaches the
caller — whenever the timestamp collection itself succeeds (`unpackPairs`
returns a list; it always has even length), `parse_takebar_format` returns
status "OK" — and a document with one broken take (a KOPIERER line with only
two columns) among well-formed ones yields all the well-formed takes' rows
plus exactly one sentinel row with speaker "" and dialogue "ERROR" carrying
the failed take's number and timecode pair, in place of that take's content.
-/
theorem c5_broken_take_recovery :
    (∀ (text : Str) (ts : List Str),
        unpackPairs (reScan matchDurCore text).1 = .ok ts →
        ∃ data, parse_takebar_format text = .ok ("OK", data)) ∧
    parse_takebar_format
        (str "1\nA\tB\n0:0:0:1 - 0:0:0:2\n2\nKOPIERER\tX\n0:0:0:3 - 0:0:0:4\n3\nC\tD\n0:0:0:5 - 0:0:0:6\n") =
      .ok ("OK",
        [⟨str "A", str "B", str "1", str "0:0:0:1", str "0:0:0:2"⟩,
         ⟨[], str "ERROR", str "2", str "0:0:0:3", str "0:0:0:4"⟩,
         ⟨str "C", str "D", str "3", str "0:0:0:5", str "0:0:0:6"⟩]) := by
  constructor
  · intro text ts h
    obtain ⟨out, hout⟩ :=
      tbSegs_total (unpackPairs_even h)
        (reScan matchDurCore (text.filter (fun c => c ≠ Char.ofNat 96))).2 0 none []
        ⟨0, rfl⟩
    refine ⟨out, ?_⟩
    unfold parse_takebar_format
    rw [h]
    dsimp only
    rw [hout]
  · decide

/-- C5 witness: the general part applied at a concrete document. -/
theorem c5_witness :
    unpackPairs (reScan matchDurCore (str "9\nP\tQ\n0:0:1:1 - 0:0:1:2\n")).1 =
      .ok [str "0:0:1:1", str "0:0:1:2"] ∧
    ∃ data, parse_takebar_format (str "9\nP\tQ\n0:0:1:1 - 0:0:1:2\n") =
      .ok ("OK", data) :=
  ⟨by decide, c5_broken_take_recovery.1 (str "9\nP\tQ\n0:0:1:1 - 0:0:1:2\n")
      [str "0:0:1:1", str "0:0:1:2"] (by decide)⟩

/-! ### Ordered pair consumption in the tabular parser -/

/-- `PairsFrom ts i data` : walking `data` left to right, each record's
(start, end) pair is an adjacent even-indexed pair `ts[k], ts[k+1]` of the
extracted token list, with the indices non-decreasing from `i` on — i.e. the
pairs are drawn from the token list in document order. -/
inductive PairsFrom (ts : List Str) : Nat → List RawRecord → Prop where
  | nil : ∀ i, PairsFrom ts i []
  | cons : ∀ (i k : Nat) (r : RawRecord) (rs : List RawRecord),
      i ≤ k → 2 ∣ k → ts.get? k = some r.start → ts.get? (k + 1) = some r.«end» →
      PairsFrom ts k rs → PairsFrom ts i (r :: rs)

theorem pairsFrom_mono {ts : List Str} {i j : Nat} (hij : i ≤ j)
    {l : List RawRecord} (h : PairsFrom ts j l) : PairsFrom ts i l := by
  cases h with
  | nil => exact .nil i
  | cons j k r rs hk hdvd h0 h1 hrest =>
    exact .cons i k r rs (le_trans hij hk) hdvd h0 h1 hrest

theorem pairsFrom_append {ts : List Str} {i : Nat} {a b : Str}
    (h0 : ts.get? i = some a) (h1 : ts.get? (i + 1) = some b) (hdvd : 2 ∣ i)
    {l1 l2 : List RawRecord} (hl1 : ∀ r ∈ l1, r.start = a ∧ r.«end» = b)
    (hl2 : PairsFrom ts i l2) : PairsFrom ts i (l1 ++ l2) := by
  induction l1 with
  | nil => simpa using hl2
  | cons r rs ih =>
    have hr := hl1 r (List.mem_cons_self r rs)
    exact .cons i i r (rs ++ l2) le_rfl hdvd (by rw [hr.1]; exact h0)
      (by rw [hr.2]; exact h1)
      (ih (fun x hx => hl1 x (List.mem_cons_of_mem r hx)))

theorem tabSegs_pairs (ts : List Str) :
    ∀ (segs : List Str) (i : Nat) (tn : Option Str) (acc : List RawRecord)
      (i2 : Nat) (out : List RawRecord),
      2 ∣ i → i ≤ ts.length →
      tabSegs ts segs i tn acc = .ok (i2, out) →
      2 ∣ i2 ∧ i2 ≤ ts.length ∧ i ≤ i2 ∧
        ∃ d, out = acc ++ d ∧ PairsFrom ts i d := by
  intro segs
  induction segs with
  | nil =>
    intro i tn acc i2 out hdvd hle h
    rw [tabSegs] at h
    injection h with h2
    injection h2 with h3 h4
    subst h3
    subst h4
    exact ⟨hdvd, hle, le_rfl, [], (List.append_nil acc).symm, .nil i⟩
  | cons m rest ih =>
    intro i tn acc i2 out hdvd hle h
    rw [tabSegs] at h
    split at h
    · -- empty filtered segment: skipped
      obtain ⟨d1, d2, d3, d, hd, hp⟩ := ih i tn acc i2 out hdvd hle h
      exact ⟨d1, d2, d3, d, hd, hp⟩
    · split at h
      · -- "Take " furniture: skipped
        obtain ⟨d1, d2, d3, d, hd, hp⟩ := ih i tn acc i2 out hdvd hle h
        exact ⟨d1, d2, d3, d, hd, hp⟩
      · split at h
        · -- timestamps exhausted: break
          injection h with h2
          injection h2 with h3 h4
          subst h3
          subst h4
          exact ⟨hdvd, hle, le_rfl, [], (List.append_nil acc).symm, .nil i⟩
        · -- consume the pair at the cursor
          split at h
          next tstart tend hget0 hget1 =>
            split at h
            next acc2 tn2 hinner =>
              have hi1 : i + 1 < ts.length := by
                by_contra hlt
                rw [List.get?_eq_none.mpr (by omega)] at hget1
                exact Option.noConfusion hget1
              obtain ⟨dA, hdA, hpA⟩ :=
                tabInner_records tstart tend _ _ _ _ _ _ hinner
              obtain ⟨e1, e2, e3, dB, hdB, hpB⟩ :=
                ih (i + 2) tn2 acc2 i2 out (by omega) (by omega) h
              refine ⟨e1, e2, by omega, dA ++ dB, ?_, ?_⟩
              · rw [hdB, hdA, List.append_assoc]
              · exact pairsFrom_append hget0 hget1 hdvd hpA
                  (pairsFrom_mono (by omega) hpB)
            · injection h
          · injection h

/-- C6 counterexample.  The claim says the number of pairs consumed equals
half the number of bare timecode tokens.  In the body below two tokens are
found (half = 1) but the only inner segment is "Take " furniture, so the
parser consumes no pair at all: the final cursor is 0 and no record is
produced. -/
theorem c6_counterexample :
    (reScan matchTc (str "0:0:1:0\nTake 1\n0:0:2:0")).1.length = 2 ∧
    parse_tabular_core (str "0:0:1:0\nTake 1\n0:0:2:0") = .ok (0, []) := by decide

/-- C6 amended: the tabular parser consumes at most half of the found tokens
(the final cursor, twice the number of consumed pairs, is even and bounded by
the token count; it can fall short when segments are skipped), and every
output record's (In, Out) pair is an adjacent even-indexed token pair drawn
from the token list in document order. -/
theorem c6_amended_pairs_consumed (body : Str) (i2 : Nat) (data : List RawRecord)
    (h : parse_tabular_core body = .ok (i2, data)) :
    2 ∣ i2 ∧ i2 ≤ (reScan matchTc body).1.length ∧
    PairsFrom (reScan matchTc body).1 0 data := by
  unfold parse_tabular_core at h
  obtain ⟨e1, e2, _, d, hd, hp⟩ :=
    tabSegs_pairs (reScan matchTc body).1 (reScan matchTc body).2 0 none [] i2 data
      ⟨0, rfl⟩ (Nat.zero_le _) h
  subst hd
  exact ⟨e1, e2, by simpa using hp⟩

/-- C6 witness: the amended theorem applied to a consuming document. -/
theorem c6_witness :
    2 ∣ 2 ∧ 2 ≤ (reScan matchTc (str "0:0:1:0\nB:\nqq\n2/2\n0:0:2:0")).1.length ∧
    PairsFrom (reScan matchTc (str "0:0:1:0\nB:\nqq\n2/2\n0:0:2:0")).1 0
      [⟨str "B", str "qq", str "2/2", str "0:0:1:0", str "0:0:2:0"⟩] :=
  c6_amended_pairs_consumed (str "0:0:1:0\nB:\nqq\n2/2\n0:0:2:0") 2
    [⟨str "B", str "qq", str "2/2", str "0:0:1:0", str "0:0:2:0"⟩] (by decide)

/-! ### Dialect routing -/

theorem matchDur_of_matchTcTc {s : Str} (h : (matchTcTc s).isSome = true) :
    (matchDurCore s).isSome = true := by
  unfold matchTcTc at h
  unfold matchDurCore
  cases hh : matchRangeHead s with
  | none => rw [hh] at h; simp at h
  | some p =>
    obtain ⟨pre, s4⟩ := p
    simp only [hh] at h ⊢
    cases ht2 : matchTc s4 with
    | none => rw [ht2] at h; simp at h
    | some q =>
      obtain ⟨t2, rest⟩ := q
      simp [ht2]

theorem reSearch_mono {m1 m2 : Str → Option (Str × Str)}
    (hmono : ∀ t, (m1 t).isSome = true → (m2 t).isSome = true) {s : Str}
    (h : reSearch m1 s = true) : reSearch m2 s = true := by
  unfold reSearch at h ⊢
  rw [List.any_eq_true] at h ⊢
  obtain ⟨t, ht, hp⟩ := h
  exact ⟨t, ht, hmono t hp⟩

/-- C7 counterexample.  The claim says the router classifies the body as
takebar exactly when some substring matches `timecode - timecode` OR
`timecode - (null)`.  The body below matches `time_duration_pattern` (its
`(null)` alternative) and contains a timecode, yet the router probe at line
63 — which has no `(null)` alternative — fails, so the TABULAR parser runs:
`parse_docx` ends in the tabular parser's IndexError on the odd token list,
while the takebar parser on the same body returns ("OK", []). -/
theorem c7_counterexample :
    hasTimestamp (str "\nQ\n0:0:0:1 - (null)\nS\tD\n") = true ∧
    reSearch matchDurCore (str "\nQ\n0:0:0:1 - (null)\nS\tD\n") = true ∧
    routeTakebar (str "\nQ\n0:0:0:1 - (null)\nS\tD\n") = false ∧
    parse_docx (str "X\nQ\n0:0:0:1 - (null)\nS\tD\n") (str "Q") = .exn .indexError ∧
    parse_takebar_format (str "\nQ\n0:0:0:1 - (null)\nS\tD\n") = .ok ("OK", []) := by
  decide

/-- C7 amended: the router classifies the body as takebar exactly when some
substring matches `timecode - timecode` (a match of that probe also matches
`time_duration_pattern`, but not conversely: a body whose only range is
`timecode - (null)` is routed to the tabular parser); given the anchor is
found and a timecode is present, `parse_docx` dispatches on exactly that
probe. -/
theorem c7_amended_router (text ftt : Str) (idx : Nat)
    (hfind : findSub text ftt = some idx)
    (hts : hasTimestamp (pySliceFrom text ((idx : Int) - 1)) = true) :
    (parse_docx text ftt =
      (match (if routeTakebar (pySliceFrom text ((idx : Int) - 1)) then
                parse_takebar_format (pySliceFrom text ((idx : Int) - 1))
              else parse_tabular_format (pySliceFrom text ((idx : Int) - 1))) with
       | .exn e => .exn e
       | .ok (st, res) => if st ≠ "OK" then .ok (st, none) else .ok (st, some res))) ∧
    (routeTakebar (pySliceFrom text ((idx : Int) - 1)) = true →
      reSearch matchDurCore (pySliceFrom text ((idx : Int) - 1)) = true) := by
  constructor
  · unfold parse_docx
    rw [hfind]
    dsimp only
    rw [if_neg (by simp [hts])]
  · intro hroute
    exact reSearch_mono (fun t => matchDur_of_matchTcTc) hroute

/-- C7 witness: the amended theorem applied to a takebar-routed document. -/
theorem c7_witness :
    (parse_docx (str "M\nN\n0:0:0:1 - 0:0:0:2\nE\tF\n") (str "N") =
      (match (if routeTakebar (pySliceFrom (str "M\nN\n0:0:0:1 - 0:0:0:2\nE\tF\n") ((2 : Int) - 1)) then
                parse_takebar_format (pySliceFrom (str "M\nN\n0:0:0:1 - 0:0:0:2\nE\tF\n") ((2 : Int) - 1))
              else parse_tabular_format (pySliceFrom (str "M\nN\n0:0:0:1 - 0:0:0:2\nE\tF\n") ((2 : Int) - 1))) with
       | .exn e => .exn e
       | .ok (st, res) => if st ≠ "OK" then .ok (st, none) else .ok (st, some res))) ∧
    (routeTakebar (pySliceFrom (str "M\nN\n0:0:0:1 - 0:0:0:2\nE\tF\n") ((2 : Int) - 1)) = true →
      reSearch matchDurCore (pySliceFrom (str "M\nN\n0:0:0:1 - 0:0:0:2\nE\tF\n") ((2 : Int) - 1)) = true) :=
  c7_amended_router (str "M\nN\n0:0:0:1 - 0:0:0:2\nE\tF\n") (str "N") 2
    (by decide) (by decide)

/-! ### Take-number normalization lemmas -/

theorem pySplitAux_no_sep {c0 : Char} : ∀ (fuel : Nat) (acc s : Str),
    s.length < fuel → c0 ∉ s → pySplitAux c0 [] fuel acc s = [acc.reverse ++ s] := by
  intro fuel
  induction fuel with
  | zero => intro acc s h _; omega
  | succ fuel ih =>
    intro acc s hlen hc
    cases s with
    | nil => simp [pySplitAux]
    | cons c cs =>
      have hcc : ¬ (c = c0 ∧ ([] : Str).isPrefixOf cs) := by
        rintro ⟨rfl, -⟩
        exact hc (List.mem_cons_self c cs)
      rw [pySplitAux, if_neg hcc,
          ih (c :: acc) cs (by simpa using Nat.lt_of_succ_lt_succ hlen)
            (fun hm => hc (List.mem_cons_of_mem c hm))]
      simp

theorem pySplitAux_split {c0 : Char} : ∀ (fuel : Nat) (acc d1 d2 : Str),
    d1.length + d2.length + 1 < fuel → c0 ∉ d1 → c0 ∉ d2 →
    pySplitAux c0 [] fuel acc (d1 ++ c0 :: d2) = [acc.reverse ++ d1, d2] := by
  intro fuel
  induction fuel with
  | zero => intro acc d1 d2 h _ _; omega
  | succ fuel ih =>
    intro acc d1 d2 hlen h1 h2
    cases d1 with
    | nil =>
      rw [List.nil_append, pySplitAux, if_pos ⟨rfl, by simp [List.isPrefixOf]⟩]
      simp only [List.length_nil, List.drop_zero]
      rw [pySplitAux_no_sep fuel [] d2 (by simp at hlen; omega) h2]
      simp
    | cons c cs =>
      have hc : ¬ (c = c0 ∧ ([] : Str).isPrefixOf (cs ++ c0 :: d2)) := by
        rintro ⟨rfl, -⟩
        exact h1 (List.mem_cons_self c cs)
      rw [List.cons_append, pySplitAux, if_neg hc,
          ih (c :: acc) cs d2 (by simp at hlen ⊢; omega)
            (fun hm => h1 (List.mem_cons_of_mem c hm)) h2]
      simp

/-- Python `tn1.split("/")` on a string shaped `d1/d2` with no other slash. -/
theorem pySplit_single_sep {c0 : Char} {d1 d2 : Str} (h1 : c0 ∉ d1) (h2 : c0 ∉ d2) :
    pySplit [c0] (d1 ++ c0 :: d2) = [d1, d2] := by
  unfold pySplit
  dsimp only
  rw [pySplitAux_split ((d1 ++ c0 :: d2).length + 1) [] d1 d2 (by simp) h1 h2]
  simp

theorem digit_not_space {c : Char} (h : c.isDigit = true) : pyIsSpace c = false := by
  simp only [pyIsSpace, decide_eq_false_iff_not]
  intro hmem
  fin_cases hmem <;> exact absurd h (by decide)

theorem dropWhile_false {p : Char → Bool} : ∀ {l : Str},
    (∀ c ∈ l, p c = false) → l.dropWhile p = l := by
  intro l h
  cases l with
  | nil => rfl
  | cons c cs =>
    rw [List.dropWhile_cons, h c (List.mem_cons_self c cs)]
    simp

theorem pyInt_digits {d : Str} (hne : d ≠ []) (hd : d.all Char.isDigit = true) :
    pyInt d = some (digitsVal d) := by
  have hdig : ∀ c ∈ d, Char.isDigit c = true := by
    intro c hc
    exact List.all_eq_true.mp hd c hc
  have hsp : ∀ c ∈ d, pyIsSpace c = false := fun c hc => digit_not_space (hdig c hc)
  have hstrip : pyStrip d = d := by
    unfold pyStrip
    rw [dropWhile_false hsp, dropWhile_false (fun c hc => hsp c (List.mem_reverse.mp hc)),
        List.reverse_reverse]
  unfold pyInt
  rw [hstrip]
  cases d with
  | nil => exact absurd rfl hne
  | cons c cs =>
    have hc := hdig c (List.mem_cons_self c cs)
    have hminus : c ≠ '-' := by intro hcc; subst hcc; exact absurd hc (by decide)
    have hplus : c ≠ '+' := by intro hcc; subst hcc; exact absurd hc (by decide)
    split
    next ds heq =>
      exact absurd (List.head_eq_of_cons_eq heq.symm).symm hminus
    next ds heq =>
      exact absurd (List.head_eq_of_cons_eq heq.symm).symm hplus
    next h1 h2 =>
      simp [hd]

theorem adaptRow_typ_of_last_A {r : RawRecord} (hA : r.take_num.getLast? = some 'A')
    {t : NormalizedRecord} (ht : adaptRow r = .ok t) : t.Typ = ['A'] := by
  have hfold : replace_umlauts ['A'] = ['A'] := by decide
  have hmem : ('A' : Char) ∈ annotChars := by decide
  unfold adaptRow at ht
  rw [hA] at ht
  simp only [if_pos hmem] at ht
  repeat' split at ht
  all_goals first
    | (injection ht; done)
    | (injection ht with h2; subst h2; exact hfold)

theorem adaptRow_fraction {r : RawRecord} {d1 d2 : Str}
    (htn : r.take_num = d1 ++ '/' :: d2) (h1 : d1 ≠ []) (h2 : d2 ≠ [])
    (hd1 : d1.all Char.isDigit = true) (hd2 : d2.all Char.isDigit = true) :
    ∃ t, adaptRow r = .ok t ∧ t.TakeNr = .int (digitsVal d2) := by
  have hnd1 : ('/' : Char) ∉ d1 := fun hm =>
    absurd (List.all_eq_true.mp hd1 _ hm) (by decide)
  have hnd2 : ('/' : Char) ∉ d2 := fun hm =>
    absurd (List.all_eq_true.mp hd2 _ hm) (by decide)
  cases hgl : d2.getLast? with
  | none =>
    cases d2 with
    | nil => exact absurd rfl h2
    | cons x xs => rw [List.getLast?_cons] at hgl; simp at hgl
  | some cl =>
    have hcl_mem : cl ∈ d2 := List.mem_of_getLast?_eq_some hgl
    have hcl_dig : cl.isDigit = true := List.all_eq_true.mp hd2 _ hcl_mem
    have hcl_na : cl ∉ annotChars := by
      intro hmm
      fin_cases hmm <;> exact absurd hcl_dig (by decide)
    have hlast : r.take_num.getLast? = some cl := by
      rw [htn, List.append_cons, List.getLast?_append_of_ne_nil _ h2, hgl]
    have hcont : r.take_num.contains '/' = true := by
      rw [htn]
      exact List.elem_eq_true_of_mem (by simp)
    unfold adaptRow
    rw [hlast]
    simp only [if_neg hcl_na]
    rw [if_pos hcont, htn, pySplit_single_sep hnd1 hnd2,
        show ([d1, d2].get? 1 : Option Str) = some d2 from rfl]
    dsimp only
    rw [pyInt_digits h2 hd2]
    exact ⟨_, rfl, rfl⟩

theorem adaptRow_passthrough {r : RawRecord} {c : Char}
    (hl : r.take_num.getLast? = some c) (hna : c ∉ annotChars)
    (hns : r.take_num.contains '/' = false) :
    ∃ t, adaptRow r = .ok t ∧ t.TakeNr = .strv r.take_num := by
  unfold adaptRow
  rw [hl]
  simp only [if_neg hna]
  rw [if_neg (fun hx => Bool.false_ne_true (hns.symm.trans hx))]
  exact ⟨_, rfl, rfl⟩

/-- C8 counterexample: the claim's unconditional "always normalizes" and
"passes through unchanged" fail on reachable inputs.  (1) At an "A-TAKE"
marker line under base take number "x/y" the emitted record carries take
number "x/yA"; the normalizer strips the 'A' but then `int("y")` raises
ValueError, so no TakeNr/Typ split is produced at all — shown both on the
record and end-to-end on a document whose take line is "x/y".  (2) A takebar
take line of spaces yields the empty take number, which is neither annotated
nor fractional, and the normalizer raises IndexError at
`row["take_num"][-1]` instead of passing it through — shown on the record
and end-to-end on a document whose second take line is two spaces. -/
theorem c8_counterexample :
    (tbTail (str "0:0:0:1") (str "0:0:0:2") none (str "x/y") false false
        [str "A-TAKE", str "S", str "D"] =
      .emit ⟨str "S", str "D", str "x/yA", str "0:0:0:1", str "0:0:0:2"⟩
        (some (str "S")) (str "x/yA") false true) ∧
    adaptRow ⟨str "S", str "D", str "x/yA", str "0:0:0:1", str "0:0:0:2"⟩ =
      .exn .valueError ∧
    parse (str "W
x/y
A-TAKE	S	D
0:0:0:1 - 0:0:0:2
") (str "x/y") =
      .exn .valueError ∧
    adaptRow ⟨str "A", str "B", [], str "0:0:0:3", str "0:0:0:4"⟩ =
      .exn .indexError ∧
    parse (str "QZ
xx
0:0:0:1 - 0:0:0:2
  
A	B
0:0:0:3 - 0:0:0:4
")
        (str "Z") = .exn .indexError := by decide

/-- C8 amended: (a) a record emitted at an "A-TAKE" marker line (a tab-split
column list whose first column is the literal "A-TAKE") carries a take number
extended by a trailing 'A', and WHENEVER the normalizer returns a row for
such a record that row's Typ is "A" (the normalizer can instead raise
ValueError when the base take number contains a '/' followed by a
non-integer); (b) a take_num of the form digits/digits normalizes to the
integer value of the digits after the slash (e.g. "12/3" to 3); (c) a
NONEMPTY take_num that is neither annotated nor fractional passes through
unchanged as a string (the empty take number instead raises IndexError). -/
theorem c8_atake_typ_and_fraction :
    (∀ (t0 t1 : Str) (spk : Option Str) (tn : Str) (inK inA : Bool)
       (a : List Str) (r : RawRecord) (spk2 : Option Str) (tn2 : Str)
       (inK2 inA2 : Bool),
       a.head? = some (str "A-TAKE") →
       tbTail t0 t1 spk tn inK inA a = .emit r spk2 tn2 inK2 inA2 →
       r.take_num = tn ++ ['A'] ∧ ∀ t, adaptRow r = .ok t → t.Typ = ['A']) ∧
    (∀ (r : RawRecord) (d1 d2 : Str),
       r.take_num = d1 ++ '/' :: d2 → d1 ≠ [] → d2 ≠ [] →
       d1.all Char.isDigit = true → d2.all Char.isDigit = true →
       ∃ t, adaptRow r = .ok t ∧ t.TakeNr = .int (digitsVal d2)) ∧
    (∀ (r : RawRecord) (c : Char),
       r.take_num.getLast? = some c → c ∉ annotChars →
       r.take_num.contains '/' = false →
       ∃ t, adaptRow r = .ok t ∧ t.TakeNr = .strv r.take_num) := by
  refine ⟨?_, fun r d1 d2 => adaptRow_fraction, fun r c => adaptRow_passthrough⟩
  intro t0 t1 spk tn inK inA a r spk2 tn2 inK2 inA2 hhead hemit
  cases a with
  | nil => simp at hhead
  | cons h0 arest =>
    injection hhead with hh
    subst hh
    unfold tbTail at hemit
    dsimp only at hemit
    rw [if_neg (by decide), if_pos rfl] at hemit
    have hA : r.take_num = tn ++ ['A'] := by
      cases arest with
      | nil => injection hemit
      | cons s1 arest2 =>
        cases arest2 with
        | nil => injection hemit with h2 _ _ _ _; subst h2; rfl
        | cons d2 rest2 => injection hemit with h2 _ _ _ _; subst h2; rfl
    refine ⟨hA, fun t ht => adaptRow_typ_of_last_A ?_ ht⟩
    rw [hA, List.getLast?_append_of_ne_nil tn (by simp)]
    rfl

/-- C8 witness: the three parts at concrete inputs (an "A-TAKE" column list
under take "3", the fractional take number "12/3", and the plain "7"). -/
theorem c8_witness :
    ((⟨str "SPRECHER B", str "Text hier", str "3A", str "0:0:7:1", str "0:0:7:2"⟩ :
        RawRecord).take_num = str "3" ++ ['A'] ∧
      ∀ t, adaptRow ⟨str "SPRECHER B", str "Text hier", str "3A", str "0:0:7:1",
          str "0:0:7:2"⟩ = .ok t → t.Typ = ['A']) ∧
    (∃ t, adaptRow ⟨str "X", str "y", str "12/3", str "a", str "b"⟩ = .ok t ∧
      t.TakeNr = .int (digitsVal (str "3"))) ∧
    (∃ t, adaptRow ⟨str "X", str "y", str "7", str "a", str "b"⟩ = .ok t ∧
      t.TakeNr = .strv (str "7")) :=
  ⟨c8_atake_typ_and_fraction.1 (str "0:0:7:1") (str "0:0:7:2") none (str "3")
      false false [str "A-TAKE", str "SPRECHER B", str "Text hier"] _ _ _ _ _
      (by decide) rfl,
   c8_atake_typ_and_fraction.2.1 ⟨str "X", str "y", str "12/3", str "a", str "b"⟩
      (str "12") (str "3") (by decide) (by decide) (by decide) (by decide) (by decide),
   c8_atake_typ_and_fraction.2.2 ⟨str "X", str "y", str "7", str "a", str "b"⟩ '7'
      (by decide) (by decide) (by decide)⟩

/-- C10: when a tabular segment consists of a speaker-label line followed by
exactly one dialogue line and no take-number line, the emitted record's
take_num is the current value of the function-scoped `take_num` variable —
i.e. the take number most recently consumed by an earlier segment of the same
call — and if no earlier segment assigned it, the parser raises an unhandled
`NameError` (UnboundLocalError) instead of returning a status, which
propagates through `parse_docx`. -/
theorem c10_takenum_carryover :
    (∀ (fuel : Nat) (tstart tend s d v : Str) (acc : List RawRecord),
       speakerMatch s = true →
       tabInner tstart tend (fuel + 1) [s, d] (some v) acc =
         .ok (acc ++ [⟨s.dropLast, d, v, tstart, tend⟩], some v)) ∧
    (∀ (fuel : Nat) (tstart tend s d : Str) (acc : List RawRecord),
       speakerMatch s = true →
       tabInner tstart tend (fuel + 1) [s, d] none acc = .exn .nameError) ∧
    parse_docx (str "Q\nTake 9\n0:0:1:0\nHANS:\nHallo\n0:0:2:0") (str "Take 9") =
      .exn .nameError ∧
    parse_tabular_format
        (str "0:0:1:0\nA:\nxx\n1/1\n0:0:2:0\nB:\nyy\n0:0:3:0\nzz\n0:0:4:0") =
      .ok ("OK",
        [⟨str "A", str "xx", str "1/1", str "0:0:1:0", str "0:0:2:0"⟩,
         ⟨str "B", str "yy", str "1/1", str "0:0:3:0", str "0:0:4:0"⟩]) := by
  refine ⟨?_, ?_, by decide, by decide⟩
  · intro fuel tstart tend s d v acc hs
    simp [tabInner, hs]
  · intro fuel tstart tend s d acc hs
    simp [tabInner, hs]

/-- C10 witness: both general parts applied at a concrete segment. -/
theorem c10_witness :
    tabInner (str "0:0:5:0") (str "0:0:6:0") 3 [str "ERZÄHLER:", str "Gut."]
        (some (str "4/4")) [] =
      .ok ([] ++ [⟨(str "ERZÄHLER:").dropLast, str "Gut.", str "4/4",
        str "0:0:5:0", str "0:0:6:0"⟩], some (str "4/4")) ∧
    tabInner (str "0:0:5:0") (str "0:0:6:0") 3 [str "ERZÄHLER:", str "Gut."]
        none [] = .exn .nameError :=
  ⟨c10_takenum_carryover.1 2 (str "0:0:5:0") (str "0:0:6:0") (str "ERZÄHLER:")
      (str "Gut.") (str "4/4") [] (by decide),
   c10_takenum_carryover.2.1 2 (str "0:0:5:0") (str "0:0:6:0") (str "ERZÄHLER:")
      (str "Gut.") [] (by decide)⟩

end SyncBuch
